import Mathlib

/-!
Verification of the unisbom collection-and-normalization layer.

Shallow embedding of the Rust sources:
* `src/windows/api.rs` — wide-string codec (`str_to_pcwstr`), registry value
  decoding (`regvalue_to_string`), version formatting (`parse_file_version`),
  uninstall-registry enumeration (`enum_registry_uninstall_locations`);
* `src/windows/mod.rs` — `Collector::string_to_u16`, `Application::new`,
  `Collector::collect_drivers`, `Collector::collect_apps`, `Collector::collect`;
* `src/macos/mod.rs` — `Collector::collect`;
* `src/component.rs` — the `Kind` enumeration.

Text is modelled as a list of Unicode code points (`List Nat`): a Rust `String`
or `str` is its sequence of scalar values.  UTF-16 code units and raw registry
bytes are also `List Nat` with the width constraints carried by hypotheses or
enforced by explicit `% 2 ^ w` where the Rust code performs an `as u16` cast.
-/

/-- A Unicode scalar value: below 0x110000 and not a surrogate.  Every `char`
of a Rust `str` satisfies this. -/
def ValidScalar (cp : Nat) : Prop :=
  cp < 0x110000 ∧ ¬(0xd800 ≤ cp ∧ cp ≤ 0xdfff)

instance (cp : Nat) : Decidable (ValidScalar cp) := by
  unfold ValidScalar; infer_instance

/-- Code points of a Lean string literal, used to write concrete inputs. -/
def txt (s : String) : List Nat :=
  s.data.map Char.toNat

/-- UTF-16 code units emitted for one code point by the encoder loop shared by
`str_to_pcwstr` (src/windows/api.rs lines 30-44) and `Collector::string_to_u16`
(src/windows/mod.rs lines 236-250).  Code points at most 0xffff are stored with
`code_point as u16`; larger ones subtract 0x10000 and emit the surrogate pair
`0xd800 + (code_point >> 10) as u16` then `0xdc00 + (code_point & 0x3ff) as u16`.
The `% 65536` renders the `as u16` casts and the wrapping `u16` additions. -/
def utf16UnitsOfChar (cp : Nat) : List Nat :=
  if cp ≤ 0xffff then
    [cp % 65536]
  else
    [(0xd800 + (((cp - 0x10000) >>> 10) % 65536)) % 65536,
     (0xdc00 + (((cp - 0x10000) &&& 0x3ff) % 65536)) % 65536]

/-- `windows::core::utf16_len`: the number of UTF-16 code units needed for the
input, one per code point at most 0xffff, two for each larger code point. -/
def utf16_len (s : List Nat) : Nat :=
  (s.map fun cp => if cp ≤ 0xffff then 1 else 2).sum

/-- `Collector::string_to_u16` / the buffer built inside `str_to_pcwstr`
(src/windows/mod.rs lines 225-257, src/windows/api.rs lines 19-51): a zero
buffer of length `utf16_len + 1` whose first `utf16_len` slots are filled with
the units of each decoded code point in order, the empty input short-circuited
to a single zero unit. -/
def string_to_u16 (s : List Nat) : List Nat :=
  if utf16_len s + 1 = 1 then [0]
  else (s.map utf16UnitsOfChar).flatten ++ [0]

/-- High-surrogate test for a UTF-16 code unit. -/
def isHighSurrogate (u : Nat) : Bool :=
  0xd800 ≤ u && u ≤ 0xdbff

/-- Low-surrogate test for a UTF-16 code unit. -/
def isLowSurrogate (u : Nat) : Bool :=
  0xdc00 ≤ u && u ≤ 0xdfff

/-- The Unicode replacement character U+FFFD. -/
def replacementChar : Nat := 0xfffd

/-- `String::from_utf16_lossy`: a high surrogate followed by a low surrogate
combines into one supplementary code point; any unpaired surrogate becomes
U+FFFD; every other unit is its own code point. -/
def from_utf16_lossy : List Nat → List Nat
  | [] => []
  | [u] =>
    if isHighSurrogate u || isLowSurrogate u then [replacementChar] else [u]
  | u :: l :: rest =>
    if isHighSurrogate u then
      if isLowSurrogate l then
        (0x10000 + (u - 0xd800) * 0x400 + (l - 0xdc00)) :: from_utf16_lossy rest
      else
        replacementChar :: from_utf16_lossy (l :: rest)
    else if isLowSurrogate u then
      replacementChar :: from_utf16_lossy (l :: rest)
    else
      u :: from_utf16_lossy (l :: rest)

/-- The `while s.ends_with('\u{0}') { s.pop(); }` loop of `regvalue_to_string`:
remove every trailing NUL code point. -/
def strip_trailing_nuls (s : List Nat) : List Nat :=
  (s.reverse.dropWhile fun c => c == 0).reverse

/-- `s.replace("\u{0}", "\n")`: the pattern and the replacement are single code
points, so the replacement is a pointwise substitution. -/
def replace_nul_with_newline (s : List Nat) : List Nat :=
  s.map fun c => if c == 0 then 10 else c

/-- Reinterpreting the little-endian byte buffer of a registry value as `u16`
words (`std::slice::from_raw_parts(bytes.as_ptr() as *const u16, len / 2)`): a
trailing odd byte is dropped by the `len / 2` count. -/
def bytes_to_words : List Nat → List Nat
  | b0 :: b1 :: rest => (b0 + 256 * b1) :: bytes_to_words rest
  | _ => []

/-- Little-endian byte serialization of `u16` words, used to build concrete
registry value buffers. -/
def words_to_bytes (ws : List Nat) : List Nat :=
  ws.flatMap fun w => [w % 256, w / 256]

/-- The `winreg` registry value types matched by `regvalue_to_string`. -/
inductive RegVType where
  | REG_NONE
  | REG_SZ
  | REG_EXPAND_SZ
  | REG_BINARY
  | REG_DWORD
  | REG_DWORD_BIG_ENDIAN
  | REG_LINK
  | REG_MULTI_SZ
  | REG_QWORD
deriving DecidableEq, Repr

/-- A `winreg::RegValue`: a native type tag and a raw byte buffer. -/
structure RegValue where
  vtype : RegVType
  bytes : List Nat
deriving DecidableEq, Repr

/-- `regvalue_to_string` (src/windows/api.rs lines 188-207, duplicated as
`Application::regvalue_to_string` in src/windows/mod.rs lines 36-55): string
typed values reinterpret the bytes as UTF-16 words, convert lossily, strip all
trailing NULs, and for `REG_MULTI_SZ` replace each remaining NUL with a
newline; any other type renders the byte vector with its `Debug` format. -/
def regvalue_to_string (v : RegValue) : List Nat :=
  match v.vtype with
  | .REG_SZ | .REG_EXPAND_SZ | .REG_MULTI_SZ =>
    let words := bytes_to_words v.bytes
    let s := strip_trailing_nuls (from_utf16_lossy words)
    if v.vtype = .REG_MULTI_SZ then replace_nul_with_newline s else s
  | _ => txt (toString v.bytes)

example : string_to_u16 (txt "A") = [65, 0] := by decide
example : string_to_u16 (txt "") = [0] := by decide
example : string_to_u16 [0x1f600] = [0xd83d, 0xde00, 0] := by decide
example : from_utf16_lossy [0xd83d, 0xde00] = [0x1f600] := by decide
example : from_utf16_lossy [0xd800] = [replacementChar] := by decide
example :
    regvalue_to_string ⟨.REG_SZ, words_to_bytes (string_to_u16 (txt "Hi"))⟩ =
      txt "Hi" := by decide
example :
    regvalue_to_string ⟨.REG_MULTI_SZ, words_to_bytes [72, 0, 87, 0, 0]⟩ =
      [72, 10, 87] := by decide

/-! ## Version formatting (src/windows/api.rs lines 172-179, mod.rs lines 359-366) -/

/-- The version string built from the fixed version block, the `Ok` branch of
`parse_file_version` / `Collector::get_file_version`:
`format!("{}.{}.{}.{}", ms >> 16, ms & 0xFFFF, ls >> 16, ls & 0xFFFF)` applied
to `dwProductVersionMS` and `dwProductVersionLS`. -/
def format_product_version (hi lo : Nat) : String :=
  toString (hi >>> 16) ++ "." ++ toString (hi &&& 0xffff) ++ "." ++
    toString (lo >>> 16) ++ "." ++ toString (lo &&& 0xffff)

/-- `parse_file_version` with the three native calls abstracted: the native
protocol either fails at one of its three steps (modelled by `query` returning
an error) or delivers the two 32-bit product-version fields, which are then
formatted.  Faithful to src/windows/api.rs lines 103-179. -/
def parse_file_version (query : String → Except String (Nat × Nat))
    (path : String) : Except String String :=
  match query path with
  | .error e => .error e
  | .ok p => .ok (format_product_version p.1 p.2)

/-! ## The shared component model (src/component.rs) -/

/-- The `Kind` enumeration exactly as declared in src/component.rs lines 4-10:
`Application` (the default), `Driver` and `Other`.  Note that src/macos/mod.rs
line 26 returns `Kind::OS`, a variant this enumeration does not declare. -/
inductive Kind where
  | Application
  | Driver
  | Other
deriving DecidableEq, Repr

/-! ## Windows applications (src/windows/mod.rs lines 22-131) -/

/-- Decoded text of one registry value as stored into `zelf.properties`:
`regvalue_to_string` turned back into a Lean `String`.  Every code point the
decoder produces is a valid scalar, so `Char.ofNat` never falls back. -/
def decode_value (v : RegValue) : String :=
  ⟨(regvalue_to_string v).map Char.ofNat⟩

/-- `HashMap::get` on the decoded property map, modelled as association-list
lookup (value names inside one registry key are unique). -/
def lookupProp (props : List (String × String)) (k : String) : Option String :=
  (props.find? fun p => p.1 == k).map Prod.snd

/-- The path-candidate loop of `Application::new` (src/windows/mod.rs lines
87-93): walk the candidate names in order; the first one that is present and
non-empty is taken and the loop breaks; otherwise the path stays `""`. -/
def first_nonempty_path (props : List (String × String)) : List String → String
  | [] => ""
  | k :: rest =>
    match lookupProp props k with
    | some v => if v.isEmpty then first_nonempty_path props rest else v
    | none => first_nonempty_path props rest

/-- A Windows registry application record (src/windows/mod.rs lines 24-33).
`modified` abstracts the `NaiveDateTime` as an integer instant. -/
structure Application where
  key : String
  modified : Int
  properties : List (String × String)
  name : String
  version : String
  path : String
  publishers : List String
deriving DecidableEq, Repr

/-- `Application::new` (src/windows/mod.rs lines 57-100): decode every raw
registry value to text, then derive `name` from `DisplayName`, `version` from
`DisplayVersion` falling back to `Version`, `path` from the first non-empty of
`InstallLocation`, `InstallSource`, `BundleCachePath`, and `publishers` as the
single `Publisher` value when present. -/
def Application.new (key : String) (modified : Int)
    (props : List (String × RegValue)) : Application :=
  let dec := props.map fun p => (p.1, decode_value p.2)
  { key := key
    modified := modified
    properties := dec
    name := (lookupProp dec "DisplayName").getD ""
    version :=
      match lookupProp dec "DisplayVersion" with
      | some v => v
      | none => (lookupProp dec "Version").getD ""
    path := first_nonempty_path dec ["InstallLocation", "InstallSource", "BundleCachePath"]
    publishers :=
      match lookupProp dec "Publisher" with
      | some p => [p]
      | none => [] }

/-- `impl ComponentTrait for Application`: `kind()` is `Kind::Application`. -/
def Application.kind (_ : Application) : Kind := .Application

/-- `impl ComponentTrait for Application`: `id()` is the registry subkey name. -/
def Application.id (a : Application) : String := a.key

/-! ## Windows drivers (src/windows/mod.rs lines 133-218) -/

/-- One `driverquery.exe` CSV record (src/windows/mod.rs lines 135-172).  The
three `serde(skip_deserializing)` fields `link_date`, `publishers` and
`version` are filled with their defaults by deserialization. -/
structure Driver where
  module_name : String
  display_name : String
  description : String
  driver_type : String
  start_mode : String
  state : String
  status : String
  accept_stop : String
  accept_pause : String
  paged_pool_size : String
  code_size : String
  bss_size : String
  link_date_string : String
  path : String
  init_size : String
  link_date : Int
  publishers : List String
  version : String
deriving DecidableEq, Repr

/-- `Driver::parse` (src/windows/mod.rs lines 175-187): a non-empty link-date
string must parse (via the chrono format string, abstracted as `parseDate`);
failure is an error, success stores the timestamp. -/
def Driver.parse (parseDate : String → Except String Int) (d : Driver) :
    Except String Driver :=
  if d.link_date_string.isEmpty then .ok d
  else
    match parseDate d.link_date_string with
    | .ok t => .ok { d with link_date := t }
    | .error e =>
      .error ("could not parse driver datetime " ++ d.link_date_string ++ ": " ++ e)

/-- `impl ComponentTrait for Driver`: `kind()` is `Kind::Driver`. -/
def Driver.kind (_ : Driver) : Kind := .Driver

/-- `impl ComponentTrait for Driver`: `name()` is the display name. -/
def Driver.name (d : Driver) : String := d.display_name

/-- `impl ComponentTrait for Driver`: `id()` is the module name. -/
def Driver.id (d : Driver) : String := d.module_name

/-- The version lookup inside `collect_drivers` (src/windows/mod.rs lines
393-398): on success the version is stored; on failure it is logged and the
record keeps its deserialized (empty) version. -/
def apply_file_version (getVer : String → Except String String) (d : Driver) :
    Driver :=
  match getVer d.path with
  | .ok v => { d with version := v }
  | .error _ => d

/-- The record loop of `collect_drivers` (src/windows/mod.rs lines 387-401):
each CSV deserialization result must be `Ok` and must `parse`, then the
version lookup is applied; the first failure aborts the phase. -/
def collect_drivers_records (parseDate : String → Except String Int)
    (getVer : String → Except String String) :
    List (Except String Driver) → Except String (List Driver)
  | [] => .ok []
  | .error e :: _ => .error ("could not deserialize driver record: " ++ e)
  | .ok d :: rest =>
    match d.parse parseDate with
    | .error e => .error e
    | .ok d1 =>
      match collect_drivers_records parseDate getVer rest with
      | .ok l => .ok (apply_file_version getVer d1 :: l)
      | .error e => .error e

/-- Captured output of an external process: exit code (0 is success) and the
lossily decoded standard output and error. -/
structure ProcOutput where
  exit_code : Int
  stdout : String
  stderr : String
deriving DecidableEq, Repr

/-- The error built when `driverquery.exe` exits non-zero
(src/windows/mod.rs lines 377-383). -/
def driverquery_failure_msg (code : Int) (stderr : String) : String :=
  "driverquery exit status " ++ toString code ++ ": " ++ stderr

/-- `Collector::collect_drivers` (src/windows/mod.rs lines 368-404): failure
to spawn the tool is an error; a non-zero exit status is an error carrying the
status and captured stderr; otherwise the CSV records (deserialized by the
abstracted `parseCSV`) are processed one by one. -/
def collect_drivers (run : Except String ProcOutput)
    (parseCSV : String → List (Except String Driver))
    (parseDate : String → Except String Int)
    (getVer : String → Except String String) : Except String (List Driver) :=
  match run with
  | .error e => .error ("could not execute driverquery.exe: " ++ e)
  | .ok out =>
    if out.exit_code ≠ 0 then
      .error (driverquery_failure_msg out.exit_code out.stderr)
    else
      collect_drivers_records parseDate getVer (parseCSV out.stdout)

/-- The error built when `system_profiler` exits non-zero
(src/macos/mod.rs lines 216-222). -/
def system_profiler_failure_msg (code : Int) (stderr : String) : String :=
  "system_profiler exit status " ++ toString code ++ ": " ++ stderr

/-- `Collector::collect` for macOS (src/macos/mod.rs lines 204-227): spawn
`system_profiler`; failure to spawn or a non-zero exit status is an error (the
latter carrying status and stderr); otherwise the captured JSON is handed to
`collect_from_json` (abstracted as `fromJson`, producing components of any
type `α`). -/
def macos_collect {α : Type} (run : Except String ProcOutput)
    (fromJson : String → Except String (List α)) : Except String (List α) :=
  match run with
  | .error e => .error ("could not execute system_profiler: " ++ e)
  | .ok out =>
    if out.exit_code ≠ 0 then
      .error (system_profiler_failure_msg out.exit_code out.stderr)
    else
      fromJson out.stdout

/-! ## Registry uninstall enumeration (src/windows/mod.rs lines 406-443) -/

/-- Result of one collection phase.  `panicked` renders a Rust panic: the
`.map(|x| x.unwrap())` calls in `collect_apps` abort the process on a failed
per-item read, which is neither an `Ok` nor an `Err` of the phase. -/
inductive Outcome (α : Type) where
  | ok : α → Outcome α
  | err : String → Outcome α
  | panicked : Outcome α
deriving DecidableEq, Repr

deriving instance DecidableEq for Except

/-- What the registry offers for one opened uninstall subkey: the
`query_info` result (last-write instant or failure) and the sequence of
per-value read results delivered by `enum_values`. -/
structure SubKeyData where
  info : Except String Int
  values : List (Except String (String × RegValue))
deriving DecidableEq, Repr

/-- One item of the `enum_keys` iteration: the key-name read result and the
result of opening that subkey. -/
structure KeyEnumItem where
  name_result : Except String String
  open_result : Except String SubKeyData
deriving DecidableEq, Repr

/-- One uninstall root: its registry path and the result of opening it, which
on success yields the `enum_keys` sequence. -/
structure RootData where
  location : String
  open_result : Except String (List KeyEnumItem)
deriving DecidableEq, Repr

/-- The `enum_values().map(|x| x.unwrap())` loop (src/windows/mod.rs lines
428-430): every value read is unwrapped, so the first failed read panics;
otherwise all name/value pairs are collected in order. -/
def read_values : List (Except String (String × RegValue)) →
    Outcome (List (String × RegValue))
  | [] => .ok []
  | .error _ :: _ => .panicked
  | .ok nv :: rest =>
    match read_values rest with
    | .ok l => .ok (nv :: l)
    | .err e => .err e
    | .panicked => .panicked

/-- The `enum_keys().map(|x| x.unwrap())` loop body of `collect_apps`
(src/windows/mod.rs lines 414-439): a failed key-name read panics; a failed
subkey open or `query_info` is a phase error; the subkey values are read with
`read_values`; a subkey contributes one `Application` exactly when its raw
properties contain `DisplayName`. -/
def process_sub_keys (location : String) : List KeyEnumItem →
    Outcome (List Application)
  | [] => .ok []
  | item :: rest =>
    match item.name_result with
    | .error _ => .panicked
    | .ok sub_key_name =>
      match item.open_result with
      | .error e =>
        .err ("can\x27t open " ++ location ++ "/" ++ sub_key_name ++ ": " ++ e)
      | .ok sub =>
        match sub.info with
        | .error e =>
          .err ("can\x27t query info for " ++ location ++ "/" ++ sub_key_name ++
            ": " ++ e)
        | .ok ts =>
          match read_values sub.values with
          | .panicked => .panicked
          | .err e => .err e
          | .ok props =>
            let comps :=
              if (props.map Prod.fst).contains "DisplayName" then
                [Application.new sub_key_name ts props]
              else []
            match process_sub_keys location rest with
            | .ok more => .ok (comps ++ more)
            | .err e => .err e
            | .panicked => .panicked

/-- `Collector::collect_apps` (src/windows/mod.rs lines 406-443): for each
uninstall root in order, opening the root is fatal on failure, then its
subkeys are processed; components accumulate across roots. -/
def collect_apps : List RootData → Outcome (List Application)
  | [] => .ok []
  | root :: rest =>
    match root.open_result with
    | .error e => .err ("can\x27t open " ++ root.location ++ ": " ++ e)
    | .ok items =>
      match process_sub_keys root.location items with
      | .ok comps =>
        match collect_apps rest with
        | .ok more => .ok (comps ++ more)
        | .err e => .err e
        | .panicked => .panicked
      | .err e => .err e
      | .panicked => .panicked

/-- A produced Windows component is either a driver or an application
(`Vec<Box<dyn ComponentTrait>>`, pushed in that order by `collect`). -/
inductive WinComponent where
  | driver : Driver → WinComponent
  | app : Application → WinComponent
deriving DecidableEq, Repr

/-- The `kind()` of a Windows component, per the two trait implementations. -/
def WinComponent.kind : WinComponent → Kind
  | .driver _ => .Driver
  | .app _ => .Application

/-- `Collector::collect` for Windows (src/windows/mod.rs lines 455-464):
drivers first, then applications, either phase failure aborting the run (a
panic in the apps phase likewise produces no result). -/
def windows_collect (run : Except String ProcOutput)
    (parseCSV : String → List (Except String Driver))
    (parseDate : String → Except String Int)
    (getVer : String → Except String String)
    (roots : List RootData) : Outcome (List WinComponent) :=
  match collect_drivers run parseCSV parseDate getVer with
  | .error e => .err e
  | .ok drivers =>
    match collect_apps roots with
    | .ok apps => .ok (drivers.map .driver ++ apps.map .app)
    | .err e => .err e
    | .panicked => .panicked

/-- A registry tree in which every root opens, every key name reads, every
subkey opens and queries its metadata, but the individual value reads are
still arbitrary results: the shape needed to isolate the per-value failure
policy. -/
def registry_of_items
    (roots : List (String × List (String × Int ×
      List (Except String (String × RegValue))))) : List RootData :=
  roots.map fun r =>
    ⟨r.1, .ok (r.2.map fun k => ⟨.ok k.1, .ok ⟨.ok k.2.1, k.2.2⟩⟩)⟩

/-- A fully successful registry tree: as `registry_of_items`, with every value
read succeeding as well. -/
def registry_of_plain
    (roots : List (String × List (String × Int ×
      List (String × RegValue)))) : List RootData :=
  registry_of_items (roots.map fun r =>
    (r.1, r.2.map fun k => (k.1, k.2.1, k.2.2.map .ok)))

example :
    collect_apps (registry_of_plain
      [("loc", [("Key1", 5, [("DisplayName", ⟨.REG_SZ, words_to_bytes [65, 0]⟩)]),
                ("Key2", 6, [("Other", ⟨.REG_SZ, words_to_bytes [66, 0]⟩)])])]) =
      .ok [Application.new "Key1" 5 [("DisplayName", ⟨.REG_SZ, words_to_bytes [65, 0]⟩)]] := by
  decide

/-! ## Wide-string codec lemmas -/

lemma utf16UnitsOfChar_low {cp : Nat} (h : cp ≤ 0xffff) :
    utf16UnitsOfChar cp = [cp] := by
  unfold utf16UnitsOfChar
  rw [if_pos h, Nat.mod_eq_of_lt (by omega)]

lemma utf16UnitsOfChar_high {cp : Nat} (h1 : 0xffff < cp) (h2 : cp < 0x110000) :
    utf16UnitsOfChar cp =
      [0xd800 + (cp - 0x10000) / 1024, 0xdc00 + (cp - 0x10000) % 1024] := by
  have hsh : (cp - 0x10000) >>> 10 = (cp - 0x10000) / 1024 := by
    rw [Nat.shiftRight_eq_div_pow]
  have hand : (cp - 0x10000) &&& 0x3ff = (cp - 0x10000) % 1024 := by
    have h10 : (0x3ff : Nat) = 2 ^ 10 - 1 := by norm_num
    rw [h10, Nat.and_pow_two_sub_one_eq_mod]
  unfold utf16UnitsOfChar
  rw [if_neg (by omega), hsh, hand]
  have hd : (cp - 0x10000) / 1024 < 1024 := by omega
  have hm : (cp - 0x10000) % 1024 < 1024 := Nat.mod_lt _ (by norm_num)
  rw [Nat.mod_eq_of_lt (by omega), Nat.mod_eq_of_lt (by omega),
    Nat.mod_eq_of_lt (by omega), Nat.mod_eq_of_lt (by omega)]

lemma utf16UnitsOfChar_lt (cp : Nat) : ∀ u ∈ utf16UnitsOfChar cp, u < 65536 := by
  intro u hu
  unfold utf16UnitsOfChar at hu
  split at hu <;> simp at hu
  · omega
  · rcases hu with h | h <;> omega

lemma utf16UnitsOfChar_length (cp : Nat) :
    (utf16UnitsOfChar cp).length = if cp ≤ 0xffff then 1 else 2 := by
  unfold utf16UnitsOfChar
  split <;> simp

lemma string_to_u16_eq (s : List Nat) :
    string_to_u16 s = (s.map utf16UnitsOfChar).flatten ++ [0] := by
  unfold string_to_u16
  split
  · rename_i h
    cases s with
    | nil => simp
    | cons a t =>
      exfalso
      simp only [utf16_len, List.map_cons, List.sum_cons] at h
      split at h <;> omega
  · rfl

lemma from_utf16_lossy_cons_cons (u l : Nat) (rest : List Nat) :
    from_utf16_lossy (u :: l :: rest) =
      if isHighSurrogate u then
        if isLowSurrogate l then
          (0x10000 + (u - 0xd800) * 0x400 + (l - 0xdc00)) :: from_utf16_lossy rest
        else
          replacementChar :: from_utf16_lossy (l :: rest)
      else if isLowSurrogate u then
        replacementChar :: from_utf16_lossy (l :: rest)
      else
        u :: from_utf16_lossy (l :: rest) := by
  rfl

lemma from_utf16_lossy_encoded {cp : Nat} (h : ValidScalar cp) (rest : List Nat) :
    from_utf16_lossy (utf16UnitsOfChar cp ++ rest) = cp :: from_utf16_lossy rest := by
  obtain ⟨h1, h2⟩ := h
  by_cases hlow : cp ≤ 0xffff
  · rw [utf16UnitsOfChar_low hlow]
    have hh : isHighSurrogate cp = false := by
      unfold isHighSurrogate; simp only [Bool.and_eq_false_iff]
      simp only [decide_eq_false_iff_not, not_le]; omega
    have hl : isLowSurrogate cp = false := by
      unfold isLowSurrogate; simp only [Bool.and_eq_false_iff]
      simp only [decide_eq_false_iff_not, not_le]; omega
    cases rest with
    | nil => simp [from_utf16_lossy, hh, hl]
    | cons r t =>
      rw [List.cons_append, List.nil_append, from_utf16_lossy_cons_cons, hh]
      simp [hl]
  · push_neg at hlow
    rw [utf16UnitsOfChar_high hlow h1]
    have hd : (cp - 0x10000) / 1024 < 1024 := by omega
    have hm : (cp - 0x10000) % 1024 < 1024 := Nat.mod_lt _ (by norm_num)
    have hh : isHighSurrogate (0xd800 + (cp - 0x10000) / 1024) = true := by
      unfold isHighSurrogate
      simp only [Bool.and_eq_true, decide_eq_true_eq]; omega
    have hl : isLowSurrogate (0xdc00 + (cp - 0x10000) % 1024) = true := by
      unfold isLowSurrogate
      simp only [Bool.and_eq_true, decide_eq_true_eq]; omega
    rw [List.cons_append, List.cons_append, List.nil_append,
      from_utf16_lossy_cons_cons, if_pos hh, if_pos hl]
    simp only [List.cons.injEq, and_true]
    omega

lemma from_utf16_lossy_encoded_stream (s : List Nat)
    (h : ∀ cp ∈ s, ValidScalar cp) (rest : List Nat) :
    from_utf16_lossy ((s.map utf16UnitsOfChar).flatten ++ rest) =
      s ++ from_utf16_lossy rest := by
  induction s with
  | nil => simp
  | cons a t ih =>
    simp only [List.map_cons, List.flatten_cons, List.append_assoc]
    rw [from_utf16_lossy_encoded (h a (by simp)),
      ih fun cp hcp => h cp (by simp [hcp])]
    simp

lemma strip_trailing_nuls_append_zero (s : List Nat) :
    strip_trailing_nuls (s ++ [0]) = strip_trailing_nuls s := by
  unfold strip_trailing_nuls
  simp [List.reverse_append, List.dropWhile_cons]

lemma strip_trailing_nuls_of_getLast (s : List Nat) (h : s.getLast? ≠ some 0) :
    strip_trailing_nuls s = s := by
  unfold strip_trailing_nuls
  cases hs : s.reverse with
  | nil =>
    have : s = [] := by simpa using congrArg List.reverse hs
    simp [this]
  | cons a t =>
    have hlast : s.getLast? = some a := by
      rw [← List.head?_reverse, hs]; rfl
    have ha : (a == 0) = false := by
      simp only [beq_eq_false_iff_ne, ne_eq]
      intro h0; rw [h0] at hlast; exact h hlast
    rw [List.dropWhile_cons, ha]
    simp only [Bool.false_eq_true, if_false]
    rw [← hs, List.reverse_reverse]

lemma bytes_to_words_words_to_bytes (ws : List Nat) (h : ∀ w ∈ ws, w < 65536) :
    bytes_to_words (words_to_bytes ws) = ws := by
  induction ws with
  | nil => rfl
  | cons w t ih =>
    have hw : w < 65536 := h w (by simp)
    simp only [words_to_bytes, List.flatMap_cons, List.cons_append,
      List.nil_append]
    rw [bytes_to_words]
    have : w % 256 + 256 * (w / 256) = w := Nat.mod_add_div w 256
    rw [this]
    congr 1
    exact ih fun x hx => h x (by simp [hx])

lemma string_to_u16_lt (s : List Nat) : ∀ u ∈ string_to_u16 s, u < 65536 := by
  rw [string_to_u16_eq]
  intro u hu
  rcases List.mem_append.mp hu with h | h
  · obtain ⟨l, hl, hul⟩ := List.mem_flatten.mp h
    obtain ⟨cp, _, rfl⟩ := List.mem_map.mp hl
    exact utf16UnitsOfChar_lt cp u hul
  · simp only [List.mem_singleton] at h; omega

lemma regvalue_to_string_sz (b : List Nat) :
    regvalue_to_string ⟨.REG_SZ, b⟩ =
      strip_trailing_nuls (from_utf16_lossy (bytes_to_words b)) := rfl

lemma regvalue_to_string_multi (b : List Nat) :
    regvalue_to_string ⟨.REG_MULTI_SZ, b⟩ =
      replace_nul_with_newline
        (strip_trailing_nuls (from_utf16_lossy (bytes_to_words b))) := rfl

/-- C1 (amended): encoding a string of valid scalars with the wide-string
encoder and decoding the code-unit buffer with the registry-value decoder
yields the original string, provided the string does not itself end in a NUL
character — the decoder strips all trailing NULs, so a trailing NUL of the
input is removed together with the encoder's terminator. -/
theorem utf16_roundtrip (s : List Nat) (hval : ∀ cp ∈ s, ValidScalar cp)
    (hlast : s.getLast? ≠ some 0) :
    regvalue_to_string ⟨.REG_SZ, words_to_bytes (string_to_u16 s)⟩ = s := by
  rw [regvalue_to_string_sz,
    bytes_to_words_words_to_bytes _ (string_to_u16_lt s), string_to_u16_eq,
    from_utf16_lossy_encoded_stream s hval]
  have h0 : from_utf16_lossy [0] = [0] := by decide
  rw [h0, strip_trailing_nuls_append_zero, strip_trailing_nuls_of_getLast s hlast]

/-- C1 witness: the round-trip theorem applied to the concrete string
`"H😀i"` (one BMP code point, one supplementary code point needing a
surrogate pair, one BMP code point). -/
theorem utf16_roundtrip_witness :
    (∀ cp ∈ ([72, 0x1f600, 105] : List Nat), ValidScalar cp) ∧
      ([72, 0x1f600, 105] : List Nat).getLast? ≠ some 0 ∧
      regvalue_to_string
          ⟨.REG_SZ, words_to_bytes (string_to_u16 [72, 0x1f600, 105])⟩ =
        [72, 0x1f600, 105] :=
  ⟨by decide, by decide, utf16_roundtrip [72, 0x1f600, 105] (by decide) (by decide)⟩

/-- C1 counterexample: the claim quantifies over every UTF-8 string whose code
points are UTF-16-representable, but for `"A\u{0}"` — a legitimate Rust
string whose code points 65 and 0 are all valid scalars — the decoder strips
the input's own trailing NUL along with the encoder's terminator, returning
`"A"` instead of the original string. -/
theorem utf16_roundtrip_counterexample :
    (∀ cp ∈ ([65, 0] : List Nat), ValidScalar cp) ∧
      regvalue_to_string ⟨.REG_SZ, words_to_bytes (string_to_u16 [65, 0])⟩ =
        [65] ∧
      regvalue_to_string ⟨.REG_SZ, words_to_bytes (string_to_u16 [65, 0])⟩ ≠
        ([65, 0] : List Nat) := by
  decide

/-- C2: for every UTF-8 input string (code points below 0x110000), the encoder
emits one unit per code point at most 0xffff and the surrogate pair
`0xd800 + ((cp - 0x10000) >> 10)`, `0xdc00 + ((cp - 0x10000) & 0x3ff)` for each
larger code point, in order; the output has length `utf16_len + 1`; its last
unit is zero; and the empty string encodes to exactly one zero unit. -/
theorem string_to_u16_spec (s : List Nat) (h : ∀ cp ∈ s, cp < 0x110000) :
    string_to_u16 s = (s.map utf16UnitsOfChar).flatten ++ [0] ∧
      (∀ cp ∈ s, utf16UnitsOfChar cp =
        if cp ≤ 0xffff then [cp]
        else [0xd800 + ((cp - 0x10000) >>> 10),
          0xdc00 + ((cp - 0x10000) &&& 0x3ff)]) ∧
      (string_to_u16 s).length = utf16_len s + 1 ∧
      (string_to_u16 s).getLast? = some 0 ∧
      string_to_u16 [] = [0] := by
  refine ⟨string_to_u16_eq s, ?_, ?_, ?_, by decide⟩
  · intro cp hcp
    by_cases hlow : cp ≤ 0xffff
    · rw [utf16UnitsOfChar_low hlow, if_pos hlow]
    · push_neg at hlow
      rw [utf16UnitsOfChar_high hlow (h cp hcp), if_neg (by omega)]
      have hsh : (cp - 0x10000) >>> 10 = (cp - 0x10000) / 1024 := by
        rw [Nat.shiftRight_eq_div_pow]
      have hand : (cp - 0x10000) &&& 0x3ff = (cp - 0x10000) % 1024 := by
        have h10 : (0x3ff : Nat) = 2 ^ 10 - 1 := by norm_num
        rw [h10, Nat.and_pow_two_sub_one_eq_mod]
      rw [hsh, hand]
  · rw [string_to_u16_eq, List.length_append, List.length_flatten,
      List.map_map]
    simp only [List.length_singleton]
    congr 1
    unfold utf16_len
    congr 1
    apply List.map_congr_left
    intro cp _
    exact utf16UnitsOfChar_length cp
  · rw [string_to_u16_eq, List.getLast?_concat]

/-- C2 witness: the encoder specification applied to the concrete string
`"A😀"`. -/
theorem string_to_u16_spec_witness :
    (∀ cp ∈ ([65, 0x1f600] : List Nat), cp < 0x110000) ∧
      string_to_u16 [65, 0x1f600] =
        (([65, 0x1f600] : List Nat).map utf16UnitsOfChar).flatten ++ [0] ∧
      (string_to_u16 [65, 0x1f600]).length = utf16_len [65, 0x1f600] + 1 ∧
      (string_to_u16 [65, 0x1f600]).getLast? = some 0 :=
  have h := string_to_u16_spec [65, 0x1f600] (by decide)
  ⟨by decide, h.1, h.2.2.1, h.2.2.2.1⟩

/-! ## Multi-string decoding (C3) -/

/-- Segments joined by one separator code point: the shape of both the raw
NUL-delimited multi-string payload and the newline-joined decoded text. -/
def sep_join (sep : Nat) : List (List Nat) → List Nat
  | [] => []
  | [seg] => seg
  | seg :: rest => seg ++ sep :: sep_join sep rest

lemma sep_join_cons_cons (sep : Nat) (seg a : List Nat) (t : List (List Nat)) :
    sep_join sep (seg :: a :: t) = seg ++ sep :: sep_join sep (a :: t) := rfl

lemma mem_sep_join {cp sep : Nat} {segs : List (List Nat)}
    (h : cp ∈ sep_join sep segs) : cp = sep ∨ ∃ seg ∈ segs, cp ∈ seg := by
  induction segs with
  | nil => simp [sep_join] at h
  | cons seg rest ih =>
    cases rest with
    | nil =>
      simp only [sep_join] at h
      exact Or.inr ⟨seg, by simp, h⟩
    | cons a t =>
      rw [sep_join_cons_cons] at h
      rcases List.mem_append.mp h with h1 | h1
      · exact Or.inr ⟨seg, by simp, h1⟩
      · rcases List.mem_cons.mp h1 with h2 | h2
        · exact Or.inl h2
        · rcases ih h2 with h3 | ⟨s, hs, hcp⟩
          · exact Or.inl h3
          · exact Or.inr ⟨s, by simp [hs], hcp⟩

lemma sep_join_ne_nil {sep : Nat} {segs : List (List Nat)} (h : segs ≠ [])
    (hne : ∀ seg ∈ segs, seg ≠ []) : sep_join sep segs ≠ [] := by
  cases segs with
  | nil => exact absurd rfl h
  | cons seg rest =>
    cases rest with
    | nil => exact hne seg (by simp)
    | cons a t =>
      rw [sep_join_cons_cons]
      intro hc
      rcases List.append_eq_nil.mp hc with ⟨_, h2⟩
      exact List.cons_ne_nil _ _ h2

lemma sep_join_getLast_ne_zero {segs : List (List Nat)} (h : segs ≠ [])
    (hne : ∀ seg ∈ segs, seg ≠ []) (h0 : ∀ seg ∈ segs, ∀ cp ∈ seg, cp ≠ 0) :
    (sep_join 0 segs).getLast? ≠ some 0 := by
  induction segs with
  | nil => exact absurd rfl h
  | cons seg rest ih =>
    cases rest with
    | nil =>
      simp only [sep_join]
      intro hc
      exact h0 seg (by simp) 0 (List.mem_of_getLast?_eq_some hc) rfl
    | cons a t =>
      rw [sep_join_cons_cons]
      have hj : sep_join 0 (a :: t) ≠ [] :=
        sep_join_ne_nil (by simp) fun s hs => hne s (by simp [hs])
      rw [List.getLast?_append_of_ne_nil _ (by simp),
        show (0 : Nat) :: sep_join 0 (a :: t) = [0] ++ sep_join 0 (a :: t) by rfl,
        List.getLast?_append_of_ne_nil _ hj]
      exact ih (by simp) (fun s hs => hne s (by simp [hs]))
        fun s hs => h0 s (by simp [hs])

lemma replace_nul_sep_join {segs : List (List Nat)}
    (h0 : ∀ seg ∈ segs, ∀ cp ∈ seg, cp ≠ 0) :
    replace_nul_with_newline (sep_join 0 segs) = sep_join 10 segs := by
  induction segs with
  | nil => rfl
  | cons seg rest ih =>
    have hseg : replace_nul_with_newline seg = seg := by
      unfold replace_nul_with_newline
      rw [List.map_congr_left, List.map_id]
      intro cp hcp
      simp [h0 seg (by simp) cp hcp]
    cases rest with
    | nil => simpa only [sep_join] using hseg
    | cons a t =>
      rw [sep_join_cons_cons, sep_join_cons_cons]
      unfold replace_nul_with_newline at *
      rw [List.map_append, hseg, List.map_cons]
      simp only [beq_self_eq_true, if_true]
      rw [ih fun s hs => h0 s (by simp [hs])]

lemma count_sep_join {segs : List (List Nat)} (h : segs ≠ [])
    (h10 : ∀ seg ∈ segs, ∀ cp ∈ seg, cp ≠ 10) :
    (sep_join 10 segs).count 10 = segs.length - 1 := by
  induction segs with
  | nil => exact absurd rfl h
  | cons seg rest ih =>
    have hseg : seg.count 10 = 0 :=
      List.count_eq_zero.mpr fun hc => h10 seg (by simp) 10 hc rfl
    cases rest with
    | nil => simpa only [sep_join] using hseg
    | cons a t =>
      rw [sep_join_cons_cons, List.count_append, hseg, List.count_cons_self,
        ih (by simp) fun s hs => h10 s (by simp [hs])]
      simp [List.length_cons]

/-- C3: a `REG_MULTI_SZ` value holding N NUL-delimited segments (each
non-empty and free of NUL and newline characters, the raw buffer being the
UTF-16 units of the segments separated by NULs and closed by the final
NUL pair) decodes to the segments joined by single newlines, in their
original order, so the decoded text has exactly N - 1 newline separators. -/
theorem multi_sz_decode (segs : List (List Nat)) (hne : segs ≠ [])
    (hseg : ∀ seg ∈ segs, seg ≠ [] ∧
      ∀ cp ∈ seg, ValidScalar cp ∧ cp ≠ 0 ∧ cp ≠ 10) :
    regvalue_to_string ⟨.REG_MULTI_SZ,
        words_to_bytes
          (((sep_join 0 segs).map utf16UnitsOfChar).flatten ++ [0, 0])⟩ =
      sep_join 10 segs ∧
    (sep_join 10 segs).count 10 = segs.length - 1 := by
  have hnonempty : ∀ seg ∈ segs, seg ≠ [] := fun seg hs => (hseg seg hs).1
  have h0 : ∀ seg ∈ segs, ∀ cp ∈ seg, cp ≠ 0 :=
    fun seg hs cp hcp => ((hseg seg hs).2 cp hcp).2.1
  have h10 : ∀ seg ∈ segs, ∀ cp ∈ seg, cp ≠ 10 :=
    fun seg hs cp hcp => ((hseg seg hs).2 cp hcp).2.2
  have hvalid : ∀ cp ∈ sep_join 0 segs, ValidScalar cp := by
    intro cp hcp
    rcases mem_sep_join hcp with h | ⟨seg, hs, hcp2⟩
    · subst h; decide
    · exact ((hseg seg hs).2 cp hcp2).1
  have hlt : ∀ w ∈ ((sep_join 0 segs).map utf16UnitsOfChar).flatten ++ [0, 0],
      w < 65536 := by
    intro w hw
    rcases List.mem_append.mp hw with h | h
    · obtain ⟨l, hl, hwl⟩ := List.mem_flatten.mp h
      obtain ⟨cp, _, rfl⟩ := List.mem_map.mp hl
      exact utf16UnitsOfChar_lt cp w hwl
    · rcases List.mem_cons.mp h with h | h
      · omega
      · simp only [List.mem_singleton] at h; omega
  refine ⟨?_, count_sep_join hne h10⟩
  rw [regvalue_to_string_multi, bytes_to_words_words_to_bytes _ hlt,
    from_utf16_lossy_encoded_stream _ hvalid]
  have h00 : from_utf16_lossy [0, 0] = [0, 0] := by decide
  rw [h00,
    show sep_join 0 segs ++ [0, 0] = (sep_join 0 segs ++ [0]) ++ [0] by simp,
    strip_trailing_nuls_append_zero, strip_trailing_nuls_append_zero,
    strip_trailing_nuls_of_getLast _ (sep_join_getLast_ne_zero hne hnonempty h0)]
  exact replace_nul_sep_join h0

/-- C3 witness: the multi-string theorem applied to the two concrete segments
`"Hi"` and `"W"`. -/
theorem multi_sz_decode_witness :
    ([[72, 105], [87]] : List (List Nat)) ≠ [] ∧
      (∀ seg ∈ ([[72, 105], [87]] : List (List Nat)), seg ≠ [] ∧
        ∀ cp ∈ seg, ValidScalar cp ∧ cp ≠ 0 ∧ cp ≠ 10) ∧
      regvalue_to_string ⟨.REG_MULTI_SZ,
          words_to_bytes
            (((sep_join 0 [[72, 105], [87]]).map utf16UnitsOfChar).flatten ++
              [0, 0])⟩ =
        sep_join 10 [[72, 105], [87]] ∧
      (sep_join 10 [[72, 105], [87]]).count 10 =
        ([[72, 105], [87]] : List (List Nat)).length - 1 :=
  ⟨by decide, by decide, multi_sz_decode [[72, 105], [87]] (by decide) (by decide)⟩

/-! ## C4: version formatting -/

/-- C4: the formatted version string is the four fields
`hi >> 16`, `hi & 0xFFFF`, `lo >> 16`, `lo & 0xFFFF` joined by dots —
equivalently the high and low 16-bit halves of each 32-bit field — and the
concrete pair `(0x00010002, 0x00030004)` formats to exactly `"1.2.3.4"`. -/
theorem format_product_version_spec :
    (∀ hi lo : Nat, format_product_version hi lo =
      toString (hi / 65536) ++ "." ++ toString (hi % 65536) ++ "." ++
        toString (lo / 65536) ++ "." ++ toString (lo % 65536)) ∧
      format_product_version 0x00010002 0x00030004 = "1.2.3.4" := by
  constructor
  · intro hi lo
    unfold format_product_version
    rw [Nat.shiftRight_eq_div_pow, Nat.shiftRight_eq_div_pow]
    have h : (0xffff : Nat) = 2 ^ 16 - 1 := by norm_num
    rw [h, Nat.and_pow_two_sub_one_eq_mod, Nat.and_pow_two_sub_one_eq_mod]
  · decide

/-! ## C9: the Kind enumeration -/

/-- C9: the `Kind` enumeration of src/component.rs has exactly the three
members `Application`, `Driver` and `Other` — they are pairwise distinct,
every value is one of them, and no four pairwise-distinct values exist, so
the enumeration cannot contain a fourth `OS` member (yet src/macos/mod.rs
line 26 returns `Kind::OS` for the macOS OS pseudo-component). -/
theorem kind_enumeration :
    (∀ k : Kind, k = Kind.Application ∨ k = Kind.Driver ∨ k = Kind.Other) ∧
      (Kind.Application ≠ Kind.Driver ∧ Kind.Application ≠ Kind.Other ∧
        Kind.Driver ≠ Kind.Other) ∧
      ∀ a b c d : Kind,
        a = b ∨ a = c ∨ a = d ∨ b = c ∨ b = d ∨ c = d := by
  refine ⟨fun k => ?_, by decide, fun a b c d => ?_⟩
  · cases k
    · exact Or.inl rfl
    · exact Or.inr (Or.inl rfl)
    · exact Or.inr (Or.inr rfl)
  · cases a <;> cases b <;> cases c <;> cases d <;> simp

/-! ## C5: path-candidate precedence -/

/-- Modelled from the spec: the derived path is the first non-empty value
among the ordered candidate properties — candidates that are absent or empty
are skipped, the first hit wins, and the result is empty when no candidate
is present and non-empty. -/
def spec_first_nonempty (props : List (String × String))
    (cands : List String) : String :=
  ((cands.filterMap (lookupProp props)).filter fun v => !v.isEmpty).headD ""

lemma first_nonempty_path_eq_spec (cands : List String)
    (props : List (String × String)) :
    first_nonempty_path props cands = spec_first_nonempty props cands := by
  induction cands with
  | nil => rfl
  | cons k rest ih =>
    unfold first_nonempty_path spec_first_nonempty
    cases h : lookupProp props k with
    | none =>
      rw [List.filterMap_cons_none h]
      exact ih
    | some v =>
      rw [List.filterMap_cons_some h, List.filter_cons]
      by_cases hv : v.isEmpty
      · simp only [hv, Bool.not_true, Bool.false_eq_true, if_false, if_true]
        exact ih
      · simp [hv]

/-- A concrete `REG_SZ` value holding the UTF-16 encoding of a string, used to
build test registry records. -/
def reg_sz_of (s : String) : RegValue :=
  ⟨.REG_SZ, words_to_bytes (string_to_u16 (txt s))⟩

/-- C5: the derived path of a registry application record is the first
non-empty value among the decoded `InstallLocation`, `InstallSource` and
`BundleCachePath` properties in that order (first match wins); in particular
an empty `InstallLocation` with `InstallSource = "C:\src"` and
`BundleCachePath = "C:\cache"` yields `"C:\src"`, and a record whose
candidates are all empty or absent yields the empty path. -/
theorem application_path_precedence :
    (∀ key modified props, (Application.new key modified props).path =
      spec_first_nonempty (props.map fun p => (p.1, decode_value p.2))
        ["InstallLocation", "InstallSource", "BundleCachePath"]) ∧
      (Application.new "k" 0
        [("InstallLocation", reg_sz_of ""), ("InstallSource", reg_sz_of "C:\\src"),
          ("BundleCachePath", reg_sz_of "C:\\cache")]).path = "C:\\src" ∧
      (Application.new "k" 0
        [("InstallLocation", reg_sz_of ""), ("Publisher", reg_sz_of "P")]).path =
        "" ∧
      (Application.new "k" 0 []).path = "" := by
  refine ⟨fun key m props => ?_, by decide, by decide, by decide⟩
  exact first_nonempty_path_eq_spec _ _

/-! ## C6 and C8: the driver phase and external-tool failure -/

lemma Driver.parse_fields (parseDate : String → Except String Int)
    (d d1 : Driver) (h : d.parse parseDate = .ok d1) :
    d1.display_name = d.display_name ∧ d1.path = d.path ∧
      d1.module_name = d.module_name ∧ d1.version = d.version := by
  unfold Driver.parse at h
  split at h
  · cases h
    exact ⟨rfl, rfl, rfl, rfl⟩
  · split at h
    · cases h
      exact ⟨rfl, rfl, rfl, rfl⟩
    · cases h

lemma Driver.parse_ok (parseDate : String → Except String Int) (d : Driver)
    (h : d.link_date_string = "" ∨ ∃ t, parseDate d.link_date_string = .ok t) :
    ∃ d1, d.parse parseDate = .ok d1 := by
  unfold Driver.parse
  by_cases hemp : d.link_date_string.isEmpty
  · exact ⟨d, by rw [if_pos hemp]⟩
  · rcases h with h | ⟨t0, h⟩
    · exact absurd (show d.link_date_string.isEmpty = true by rw [h]; rfl) hemp
    · exact ⟨{ d with link_date := t0 }, by rw [if_neg hemp, h]⟩

lemma collect_drivers_records_cons_ok (parseDate : String → Except String Int)
    (getVer : String → Except String String) (d : Driver)
    (rest : List (Except String Driver)) :
    collect_drivers_records parseDate getVer (.ok d :: rest) =
      match d.parse parseDate with
      | .error e => .error e
      | .ok d1 =>
        match collect_drivers_records parseDate getVer rest with
        | .ok l => .ok (apply_file_version getVer d1 :: l)
        | .error e => .error e := rfl

lemma collect_drivers_records_all_ok (parseDate : String → Except String Int)
    (getVer : String → Except String String) (recs : List Driver)
    (hparse : ∀ d ∈ recs, d.link_date_string = "" ∨
      ∃ t, parseDate d.link_date_string = .ok t)
    (hver : ∀ d ∈ recs, d.version = "") :
    ∃ ds, collect_drivers_records parseDate getVer (recs.map Except.ok) = .ok ds ∧
      List.Forall₂ (fun r o =>
        o.display_name = r.display_name ∧ o.path = r.path ∧
          o.module_name = r.module_name ∧
          ((∃ e, getVer r.path = .error e) → o.version = "") ∧
          (∀ v, getVer r.path = .ok v → o.version = v)) recs ds := by
  induction recs with
  | nil => exact ⟨[], rfl, List.Forall₂.nil⟩
  | cons d t ih =>
    obtain ⟨ds, hds, hall⟩ :=
      ih (fun x hx => hparse x (by simp [hx])) fun x hx => hver x (by simp [hx])
    obtain ⟨d1, hd1⟩ := Driver.parse_ok parseDate d (hparse d (by simp))
    obtain ⟨hn, hpth, hm, hv⟩ := Driver.parse_fields parseDate d d1 hd1
    refine ⟨apply_file_version getVer d1 :: ds, ?_, ?_⟩
    · rw [List.map_cons, collect_drivers_records_cons_ok, hd1, hds]
    · refine List.Forall₂.cons ⟨?_, ?_, ?_, ?_, ?_⟩ hall
      · unfold apply_file_version
        split <;> simpa using hn
      · unfold apply_file_version
        split <;> simpa using hpth
      · unfold apply_file_version
        split <;> simpa using hm
      · rintro ⟨e, he⟩
        unfold apply_file_version
        rw [hpth, he]
        simpa [hver d (by simp)] using hv
      · intro v hgv
        unfold apply_file_version
        rw [hpth, hgv]

lemma collect_drivers_ok_input (out : ProcOutput)
    (parseCSV : String → List (Except String Driver))
    (parseDate : String → Except String Int)
    (getVer : String → Except String String) :
    collect_drivers (.ok out) parseCSV parseDate getVer =
      if out.exit_code ≠ 0 then
        .error (driverquery_failure_msg out.exit_code out.stderr)
      else collect_drivers_records parseDate getVer (parseCSV out.stdout) := rfl

/-- C6: when the driver tool exits successfully and every CSV record
deserializes (with an empty or parseable link date), the driver phase
succeeds no matter which version-resource lookups fail: every record is
collected in order, each produced component is of `Driver` kind with the
record's display name and path, a record whose version lookup fails keeps the
deserialized (empty) version, and a following successful apps phase is still
appended by `collect`. -/
theorem collect_drivers_version_failure_nonfatal
    (out : ProcOutput) (recs : List Driver)
    (parseCSV : String → List (Except String Driver))
    (parseDate : String → Except String Int)
    (getVer : String → Except String String)
    (hcode : out.exit_code = 0)
    (hcsv : parseCSV out.stdout = recs.map Except.ok)
    (hparse : ∀ d ∈ recs, d.link_date_string = "" ∨
      ∃ t, parseDate d.link_date_string = .ok t)
    (hver : ∀ d ∈ recs, d.version = "") :
    ∃ ds, collect_drivers (.ok out) parseCSV parseDate getVer = .ok ds ∧
      ds.length = recs.length ∧
      List.Forall₂ (fun r o =>
        (WinComponent.driver o).kind = Kind.Driver ∧
          o.display_name = r.display_name ∧ o.path = r.path ∧
          ((∃ e, getVer r.path = .error e) → o.version = "")) recs ds ∧
      ∀ roots apps, collect_apps roots = .ok apps →
        windows_collect (.ok out) parseCSV parseDate getVer roots =
          .ok (ds.map WinComponent.driver ++ apps.map WinComponent.app) := by
  obtain ⟨ds, hds, hall⟩ :=
    collect_drivers_records_all_ok parseDate getVer recs hparse hver
  have hcd : collect_drivers (.ok out) parseCSV parseDate getVer = .ok ds := by
    rw [collect_drivers_ok_input, if_neg (by simp [hcode]), hcsv]
    exact hds
  refine ⟨ds, hcd, (List.Forall₂.length_eq hall).symm, ?_, ?_⟩
  · refine List.Forall₂.imp ?_ hall
    intro r o h
    exact ⟨rfl, h.1, h.2.1, h.2.2.2.1⟩
  · intro roots apps happs
    unfold windows_collect
    rw [hcd, happs]

/-- A concrete CSV driver record for test inputs: module name, display name
and path populated, every other deserialized field empty, and the three
`skip_deserializing` fields at their defaults. -/
def test_driver (m dn p : String) : Driver :=
  ⟨m, dn, "", "", "", "", "", "", "", "", "", "", "", p, "", 0, [], ""⟩

/-- C6 witness: a two-record run in which the version lookup fails for the
first driver and succeeds for the second; the phase still returns both. -/
theorem collect_drivers_version_failure_nonfatal_witness :
    ∃ ds, collect_drivers (.ok ⟨0, "", ""⟩)
        (fun _ => [.ok (test_driver "m1" "Drv1" "p1"),
          .ok (test_driver "m2" "Drv2" "p2")])
        (fun _ => .error "no date")
        (fun p => if p == "p1" then .error "lookup failed" else .ok "1.2.3.4") =
      .ok ds ∧
      ds.length = 2 ∧
      List.Forall₂ (fun r o =>
        (WinComponent.driver o).kind = Kind.Driver ∧
          o.display_name = r.display_name ∧ o.path = r.path ∧
          ((∃ e, (fun p => if p == "p1" then .error "lookup failed"
              else .ok "1.2.3.4" : String → Except String String) r.path =
                .error e) →
            o.version = ""))
        [test_driver "m1" "Drv1" "p1", test_driver "m2" "Drv2" "p2"] ds ∧
      ∀ roots apps, collect_apps roots = .ok apps →
        windows_collect (.ok ⟨0, "", ""⟩)
          (fun _ => [.ok (test_driver "m1" "Drv1" "p1"),
            .ok (test_driver "m2" "Drv2" "p2")])
          (fun _ => .error "no date")
          (fun p => if p == "p1" then .error "lookup failed" else .ok "1.2.3.4")
          roots =
        .ok (ds.map WinComponent.driver ++ apps.map WinComponent.app) :=
  collect_drivers_version_failure_nonfatal ⟨0, "", ""⟩
    [test_driver "m1" "Drv1" "p1", test_driver "m2" "Drv2" "p2"] _ _ _ rfl rfl
    (by intro d hd; rcases hd with _ | ⟨_, _ | ⟨_, h⟩⟩ <;> first | exact Or.inl rfl | cases h)
    (by intro d hd; rcases hd with _ | ⟨_, _ | ⟨_, h⟩⟩ <;> first | rfl | cases h)

lemma macos_collect_ok_input {α : Type} (out : ProcOutput)
    (fromJson : String → Except String (List α)) :
    macos_collect (.ok out) fromJson =
      if out.exit_code ≠ 0 then
        .error (system_profiler_failure_msg out.exit_code out.stderr)
      else fromJson out.stdout := rfl

/-- C8: a non-zero exit status of the external inventory tool is immediately
fatal on both platforms: the Windows run fails with the driverquery message
carrying the exit status and captured stderr, the macOS run fails with the
system_profiler message carrying the same data, and neither run produces a
component sequence. -/
theorem external_tool_failure_fatal {α : Type} (out : ProcOutput)
    (parseCSV : String → List (Except String Driver))
    (parseDate : String → Except String Int)
    (getVer : String → Except String String) (roots : List RootData)
    (fromJson : String → Except String (List α))
    (hcode : out.exit_code ≠ 0) :
    windows_collect (.ok out) parseCSV parseDate getVer roots =
        .err (driverquery_failure_msg out.exit_code out.stderr) ∧
      (∀ comps, windows_collect (.ok out) parseCSV parseDate getVer roots ≠
        .ok comps) ∧
      macos_collect (.ok out) fromJson =
        .error (system_profiler_failure_msg out.exit_code out.stderr) ∧
      ∀ comps, macos_collect (.ok out) fromJson ≠ .ok comps := by
  have hw : windows_collect (.ok out) parseCSV parseDate getVer roots =
      .err (driverquery_failure_msg out.exit_code out.stderr) := by
    unfold windows_collect
    rw [collect_drivers_ok_input, if_pos hcode]
  have hm : macos_collect (.ok out) fromJson =
      .error (system_profiler_failure_msg out.exit_code out.stderr) := by
    rw [macos_collect_ok_input, if_pos hcode]
  refine ⟨hw, fun comps hc => ?_, hm, fun comps hc => ?_⟩
  · rw [hw] at hc
    cases hc
  · rw [hm] at hc
    cases hc

/-- C8 witness: the fatality theorem applied to a tool run that exited with
status 1 and stderr `"boom"`. -/
theorem external_tool_failure_fatal_witness :
    (1 : Int) ≠ 0 ∧
      windows_collect (.ok ⟨1, "out", "boom"⟩) (fun _ => [])
          (fun _ => .error "") (fun _ => .error "") [] =
        .err (driverquery_failure_msg 1 "boom") ∧
      macos_collect (α := Driver) (.ok ⟨1, "out", "boom"⟩) (fun _ => .ok []) =
        .error (system_profiler_failure_msg 1 "boom") :=
  have h := external_tool_failure_fatal (α := Driver) ⟨1, "out", "boom"⟩
    (fun _ => []) (fun _ => .error "") (fun _ => .error "") []
    (fun _ => .ok []) (by decide)
  ⟨by decide, h.1, h.2.2.1⟩

/-! ## C7 and C10: registry uninstall enumeration -/

/-- Whether a per-item registry read result is a failure. -/
def is_err_result {ε α : Type} : Except ε α → Bool
  | .error _ => true
  | .ok _ => false

lemma read_values_err (vs : List (Except String (String × RegValue)))
    (h : ∃ v ∈ vs, is_err_result v = true) : read_values vs = .panicked := by
  induction vs with
  | nil => simp at h
  | cons v t ih =>
    cases v with
    | error e => rfl
    | ok nv =>
      obtain ⟨w, hw, hws⟩ := h
      rcases List.mem_cons.mp hw with rfl | hw2
      · simp [is_err_result] at hws
      · have ht := ih ⟨w, hw2, hws⟩
        simp [read_values, ht]

lemma read_values_all_ok (vs : List (Except String (String × RegValue)))
    (h : ∀ v ∈ vs, is_err_result v = false) :
    ∃ ws, vs = ws.map Except.ok ∧ read_values vs = .ok ws := by
  induction vs with
  | nil => exact ⟨[], rfl, rfl⟩
  | cons v t ih =>
    obtain ⟨ws, hws, hrv⟩ := ih fun x hx => h x (by simp [hx])
    cases v with
    | error e =>
      exact absurd (h (Except.error e) (by simp)) (by simp [is_err_result])
    | ok nv =>
      refine ⟨nv :: ws, by simp [hws], ?_⟩
      simp [read_values, hrv]

lemma process_sub_keys_items_panic (loc : String)
    (ks : List (String × Int × List (Except String (String × RegValue))))
    (h : ∃ k ∈ ks, ∃ v ∈ k.2.2, is_err_result v = true) :
    process_sub_keys loc (ks.map fun k => ⟨.ok k.1, .ok ⟨.ok k.2.1, k.2.2⟩⟩) =
      .panicked := by
  induction ks with
  | nil => simp at h
  | cons k t ih =>
    simp only [List.map_cons, process_sub_keys]
    by_cases hh : ∃ v ∈ k.2.2, is_err_result v = true
    · rw [read_values_err _ hh]
    · obtain ⟨ws, _, hrv⟩ := read_values_all_ok k.2.2 (by
        intro v hv
        by_contra hc
        exact hh ⟨v, hv, by revert hc; cases is_err_result v <;> simp⟩)
      rw [hrv]
      have ht : ∃ k2 ∈ t, ∃ v ∈ k2.2.2, is_err_result v = true := by
        obtain ⟨k2, hk2, hv⟩ := h
        rcases List.mem_cons.mp hk2 with rfl | h2
        · exact absurd hv hh
        · exact ⟨k2, h2, hv⟩
      rw [ih ht]

lemma process_sub_keys_items_ok (loc : String)
    (ks : List (String × Int × List (Except String (String × RegValue))))
    (h : ∀ k ∈ ks, ∀ v ∈ k.2.2, is_err_result v = false) :
    ∃ apps, process_sub_keys loc
      (ks.map fun k => ⟨.ok k.1, .ok ⟨.ok k.2.1, k.2.2⟩⟩) = .ok apps := by
  induction ks with
  | nil => exact ⟨[], rfl⟩
  | cons k t ih =>
    obtain ⟨apps, happ⟩ := ih fun x hx => h x (by simp [hx])
    obtain ⟨ws, _, hrv⟩ := read_values_all_ok k.2.2 (h k (by simp))
    refine ⟨(if (ws.map Prod.fst).contains "DisplayName" then
      [Application.new k.1 k.2.1 ws] else []) ++ apps, ?_⟩
    simp only [List.map_cons, process_sub_keys]
    rw [hrv, happ]

lemma collect_apps_items_panic
    (roots : List (String × List (String × Int ×
      List (Except String (String × RegValue)))))
    (h : ∃ r ∈ roots, ∃ k ∈ r.2, ∃ v ∈ k.2.2, is_err_result v = true) :
    collect_apps (registry_of_items roots) = .panicked := by
  induction roots with
  | nil => simp at h
  | cons r t ih =>
    simp only [registry_of_items, List.map_cons, collect_apps]
    by_cases hr : ∃ k ∈ r.2, ∃ v ∈ k.2.2, is_err_result v = true
    · rw [process_sub_keys_items_panic r.1 r.2 hr]
    · obtain ⟨apps, happ⟩ := process_sub_keys_items_ok r.1 r.2 (by
        intro k hk v hv
        by_contra hc
        exact hr ⟨k, hk, v, hv, by revert hc; cases is_err_result v <;> simp⟩)
      rw [happ]
      have ht : ∃ r2 ∈ t, ∃ k ∈ r2.2, ∃ v ∈ k.2.2, is_err_result v = true := by
        obtain ⟨r2, hr2, hv⟩ := h
        rcases List.mem_cons.mp hr2 with rfl | h2
        · exact absurd hv hr
        · exact ⟨r2, h2, hv⟩
      have := ih ht
      simp only [registry_of_items] at this
      rw [this]

lemma collect_apps_items_ok
    (roots : List (String × List (String × Int ×
      List (Except String (String × RegValue)))))
    (h : ∀ r ∈ roots, ∀ k ∈ r.2, ∀ v ∈ k.2.2, is_err_result v = false) :
    ∃ apps, collect_apps (registry_of_items roots) = .ok apps := by
  induction roots with
  | nil => exact ⟨[], rfl⟩
  | cons r t ih =>
    obtain ⟨apps, happ⟩ := ih fun x hx => h x (by simp [hx])
    obtain ⟨rapps, hrapp⟩ := process_sub_keys_items_ok r.1 r.2 (h r (by simp))
    refine ⟨rapps ++ apps, ?_⟩
    simp only [registry_of_items, List.map_cons, collect_apps]
    rw [hrapp]
    simp only [registry_of_items] at happ
    rw [happ]

/-- C7 counterexample: one uninstall root that opens successfully, one subkey
that opens and queries its metadata successfully, and a single value read that
fails.  The claim predicts the entry is returned with the value absent; the
code instead unwraps the failed read and panics, so the enumeration produces
no result at all. -/
theorem collect_apps_value_failure_counterexample :
    collect_apps (registry_of_items
        [("SOFTWARE\\loc", [("Key1", 3, [.error "value read failed"])])]) =
      .panicked ∧
      ∀ apps, collect_apps (registry_of_items
        [("SOFTWARE\\loc", [("Key1", 3, [.error "value read failed"])])]) ≠
        .ok apps :=
  have h : collect_apps (registry_of_items
      [("SOFTWARE\\loc", [("Key1", 3, [.error "value read failed"])])]) =
      .panicked := by decide
  ⟨h, fun apps hc => by rw [h] at hc; cases hc⟩


/-- A fully readable subkey as one `enum_keys` item: name read, subkey open
and metadata query all succeed, and every value read succeeds. -/
def plain_key_item (k : String × Int × List (String × RegValue)) : KeyEnumItem :=
  ⟨.ok k.1, .ok ⟨.ok k.2.1, k.2.2.map .ok⟩⟩

/-- The applications a fully readable subkey list contributes: one per subkey
whose raw properties contain `DisplayName`, in order. -/
def expected_apps (ks : List (String × Int × List (String × RegValue))) :
    List Application :=
  ks.flatMap fun k =>
    if (k.2.2.map Prod.fst).contains "DisplayName" then
      [Application.new k.1 k.2.1 k.2.2]
    else []

lemma registry_of_plain_cons
    (r : String × List (String × Int × List (String × RegValue)))
    (t : List (String × List (String × Int × List (String × RegValue)))) :
    registry_of_plain (r :: t) =
      ⟨r.1, .ok (r.2.map plain_key_item)⟩ :: registry_of_plain t := by
  simp only [registry_of_plain, registry_of_items, List.map_cons, List.map_map]
  rfl

lemma process_sub_keys_cons (loc : String) (item : KeyEnumItem)
    (rest : List KeyEnumItem) :
    process_sub_keys loc (item :: rest) =
      match item.name_result with
      | .error _ => .panicked
      | .ok sub_key_name =>
        match item.open_result with
        | .error e =>
          .err ("can\x27t open " ++ loc ++ "/" ++ sub_key_name ++ ": " ++ e)
        | .ok sub =>
          match sub.info with
          | .error e =>
            .err ("can\x27t query info for " ++ loc ++ "/" ++ sub_key_name ++
              ": " ++ e)
          | .ok ts =>
            match read_values sub.values with
            | .panicked => .panicked
            | .err e => .err e
            | .ok props =>
              match process_sub_keys loc rest with
              | .ok more =>
                .ok ((if (props.map Prod.fst).contains "DisplayName" then
                  [Application.new sub_key_name ts props] else []) ++ more)
              | .err e => .err e
              | .panicked => .panicked := rfl

lemma collect_apps_cons_ok (loc : String) (items : List KeyEnumItem)
    (rest : List RootData) :
    collect_apps (⟨loc, .ok items⟩ :: rest) =
      match process_sub_keys loc items with
      | .ok comps =>
        match collect_apps rest with
        | .ok more => .ok (comps ++ more)
        | .err e => .err e
        | .panicked => .panicked
      | .err e => .err e
      | .panicked => .panicked := rfl

lemma process_sub_keys_plain (loc : String)
    (ks : List (String × Int × List (String × RegValue))) :
    process_sub_keys loc (ks.map plain_key_item) = .ok (expected_apps ks) := by
  induction ks with
  | nil => rfl
  | cons k t ih =>
    obtain ⟨ws, hws, hrv⟩ := read_values_all_ok (k.2.2.map .ok)
      (by intro v hv; obtain ⟨w, _, rfl⟩ := List.mem_map.mp hv; rfl)
    have hwk : ws = k.2.2 := by
      have := List.map_injective_iff.mpr (fun a b h => Except.ok.inj h) hws.symm
      exact this
    subst hwk
    rw [List.map_cons, process_sub_keys_cons]
    simp only [plain_key_item, hrv, ih, expected_apps, List.flatMap_cons]

lemma process_sub_keys_plain_append (loc : String)
    (ks : List (String × Int × List (String × RegValue)))
    (items : List KeyEnumItem) :
    process_sub_keys loc (ks.map plain_key_item ++ items) =
      match process_sub_keys loc items with
      | .ok more => .ok (expected_apps ks ++ more)
      | .err e => .err e
      | .panicked => .panicked := by
  induction ks with
  | nil =>
    rw [List.map_nil, List.nil_append]
    cases h : process_sub_keys loc items <;> simp [expected_apps]
  | cons k t ih =>
    obtain ⟨ws, hws, hrv⟩ := read_values_all_ok (k.2.2.map .ok)
      (by intro v hv; obtain ⟨w, _, rfl⟩ := List.mem_map.mp hv; rfl)
    have hwk : ws = k.2.2 := by
      have := List.map_injective_iff.mpr (fun a b h => Except.ok.inj h) hws.symm
      exact this
    subst hwk
    rw [List.map_cons, List.cons_append, process_sub_keys_cons]
    simp only [plain_key_item, hrv, ih]
    cases h : process_sub_keys loc items <;>
      simp [expected_apps, List.flatMap_cons, List.append_assoc]

lemma process_sub_keys_subkey_open_failure (loc : String)
    (ks : List (String × Int × List (String × RegValue))) (n e : String)
    (items : List KeyEnumItem) :
    process_sub_keys loc (ks.map plain_key_item ++ ⟨.ok n, .error e⟩ :: items) =
      .err ("can\x27t open " ++ loc ++ "/" ++ n ++ ": " ++ e) := by
  rw [process_sub_keys_plain_append]
  rfl

lemma process_sub_keys_query_info_failure (loc : String)
    (ks : List (String × Int × List (String × RegValue))) (n e : String)
    (vs : List (Except String (String × RegValue)))
    (items : List KeyEnumItem) :
    process_sub_keys loc
      (ks.map plain_key_item ++ ⟨.ok n, .ok ⟨.error e, vs⟩⟩ :: items) =
      .err ("can\x27t query info for " ++ loc ++ "/" ++ n ++ ": " ++ e) := by
  rw [process_sub_keys_plain_append]
  rfl

lemma collect_apps_plain_append
    (pre : List (String × List (String × Int × List (String × RegValue))))
    (roots : List RootData) :
    collect_apps (registry_of_plain pre ++ roots) =
      match collect_apps roots with
      | .ok more => .ok ((pre.flatMap fun r => expected_apps r.2) ++ more)
      | .err e => .err e
      | .panicked => .panicked := by
  induction pre with
  | nil =>
    rw [show registry_of_plain [] ++ roots = roots from rfl]
    cases h : collect_apps roots <;> rfl
  | cons r t ih =>
    rw [registry_of_plain_cons, List.cons_append, collect_apps_cons_ok]
    simp only [process_sub_keys_plain, ih]
    cases h : collect_apps roots <;>
      simp [List.flatMap_cons, List.append_assoc]

lemma collect_apps_root_open_failure
    (pre : List (String × List (String × Int × List (String × RegValue))))
    (loc e : String) (rest : List RootData) :
    collect_apps (registry_of_plain pre ++ ⟨loc, .error e⟩ :: rest) =
      .err ("can\x27t open " ++ loc ++ ": " ++ e) := by
  rw [collect_apps_plain_append]
  rfl

lemma collect_apps_subkey_open_failure
    (pre : List (String × List (String × Int × List (String × RegValue))))
    (loc : String) (ks : List (String × Int × List (String × RegValue)))
    (n e : String) (items : List KeyEnumItem) (rest : List RootData) :
    collect_apps (registry_of_plain pre ++
        ⟨loc, .ok (ks.map plain_key_item ++ ⟨.ok n, .error e⟩ :: items)⟩ ::
          rest) =
      .err ("can\x27t open " ++ loc ++ "/" ++ n ++ ": " ++ e) := by
  rw [collect_apps_plain_append, collect_apps_cons_ok,
    process_sub_keys_subkey_open_failure]

lemma collect_apps_query_info_failure
    (pre : List (String × List (String × Int × List (String × RegValue))))
    (loc : String) (ks : List (String × Int × List (String × RegValue)))
    (n e : String) (vs : List (Except String (String × RegValue)))
    (items : List KeyEnumItem) (rest : List RootData) :
    collect_apps (registry_of_plain pre ++
        ⟨loc, .ok (ks.map plain_key_item ++ ⟨.ok n, .ok ⟨.error e, vs⟩⟩ ::
          items)⟩ :: rest) =
      .err ("can\x27t query info for " ++ loc ++ "/" ++ n ++ ": " ++ e) := by
  rw [collect_apps_plain_append, collect_apps_cons_ok,
    process_sub_keys_query_info_failure]

/-- C7 (amended): a failure to read an individual value inside an
otherwise-open subkey is not tolerated — the unchecked `unwrap` panics, so
the whole enumeration aborts with neither entries nor a phase error; the
enumeration completes and returns its entries exactly when every value read
succeeds; and, after any fully readable prefix of roots and subkeys, a
failure to open a root key, to open a subkey, or to query a subkey's
metadata is a fatal phase error carrying the corresponding message, as the
claim says. -/
theorem collect_apps_value_failure_panics
    (roots : List (String × List (String × Int ×
      List (Except String (String × RegValue))))) :
    ((∃ r ∈ roots, ∃ k ∈ r.2, ∃ v ∈ k.2.2, is_err_result v = true) →
        collect_apps (registry_of_items roots) = .panicked) ∧
      ((∀ r ∈ roots, ∀ k ∈ r.2, ∀ v ∈ k.2.2, is_err_result v = false) →
        ∃ apps, collect_apps (registry_of_items roots) = .ok apps) ∧
      (∀ (pre : List (String × List (String × Int ×
          List (String × RegValue)))) (loc e : String) (rest : List RootData),
        collect_apps (registry_of_plain pre ++ ⟨loc, .error e⟩ :: rest) =
          .err ("can\x27t open " ++ loc ++ ": " ++ e)) ∧
      (∀ (pre : List (String × List (String × Int ×
          List (String × RegValue)))) (loc : String)
          (ks : List (String × Int × List (String × RegValue)))
          (n e : String) (items : List KeyEnumItem) (rest : List RootData),
        collect_apps (registry_of_plain pre ++
            ⟨loc, .ok (ks.map plain_key_item ++ ⟨.ok n, .error e⟩ :: items)⟩ ::
              rest) =
          .err ("can\x27t open " ++ loc ++ "/" ++ n ++ ": " ++ e)) ∧
      ∀ (pre : List (String × List (String × Int ×
          List (String × RegValue)))) (loc : String)
          (ks : List (String × Int × List (String × RegValue)))
          (n e : String) (vs : List (Except String (String × RegValue)))
          (items : List KeyEnumItem) (rest : List RootData),
        collect_apps (registry_of_plain pre ++
            ⟨loc, .ok (ks.map plain_key_item ++ ⟨.ok n, .ok ⟨.error e, vs⟩⟩ ::
              items)⟩ :: rest) =
          .err ("can\x27t query info for " ++ loc ++ "/" ++ n ++ ": " ++ e) :=
  ⟨collect_apps_items_panic roots, collect_apps_items_ok roots,
    collect_apps_root_open_failure, collect_apps_subkey_open_failure,
    collect_apps_query_info_failure⟩

/-- C7 witness: the amended theorem applied to a concrete tree with one
failing value read (yielding a panic), to a concrete fully-readable tree
(yielding entries), and to concrete subkey-open and query-info failures
(yielding the fatal phase errors). -/
theorem collect_apps_value_failure_panics_witness :
    (∃ r ∈ [("SOFTWARE\\loc",
        [("Key1", (3 : Int), [(.error "value read failed" :
          Except String (String × RegValue))])])],
      ∃ k ∈ r.2, ∃ v ∈ k.2.2, is_err_result v = true) ∧
      collect_apps (registry_of_items
        [("SOFTWARE\\loc", [("Key1", 3, [.error "value read failed"])])]) =
        .panicked ∧
      (∃ apps, collect_apps (registry_of_items
        [("SOFTWARE\\loc", [("Key1", 3, [.ok ("DisplayName", reg_sz_of "App")])])]) =
        .ok apps) ∧
      collect_apps (registry_of_plain [] ++
          ⟨"SOFTWARE\\loc", .ok ([("K0", 7, [])].map plain_key_item ++
            ⟨.ok "Key1", .error "access denied"⟩ :: [])⟩ :: []) =
        .err ("can\x27t open " ++ "SOFTWARE\\loc" ++ "/" ++ "Key1" ++ ": " ++
          "access denied") ∧
      collect_apps (registry_of_plain [] ++
          ⟨"SOFTWARE\\loc", .ok ([].map plain_key_item ++
            ⟨.ok "Key1", .ok ⟨.error "query failed", []⟩⟩ :: [])⟩ :: []) =
        .err ("can\x27t query info for " ++ "SOFTWARE\\loc" ++ "/" ++ "Key1" ++
          ": " ++ "query failed") :=
  ⟨by decide,
    (collect_apps_value_failure_panics
      [("SOFTWARE\\loc", [("Key1", 3, [.error "value read failed"])])]).1
      (by decide),
    (collect_apps_value_failure_panics
      [("SOFTWARE\\loc", [("Key1", 3, [.ok ("DisplayName", reg_sz_of "App")])])]).2.1
      (by decide),
    (collect_apps_value_failure_panics []).2.2.2.1 [] "SOFTWARE\\loc"
      [("K0", 7, [])] "Key1" "access denied" [] [],
    (collect_apps_value_failure_panics []).2.2.2.2 [] "SOFTWARE\\loc" []
      "Key1" "query failed" [] [] []⟩

/-- C10: over any fully readable uninstall tree, a subkey contributes exactly
one `Application` when its raw properties contain a `DisplayName` value and
nothing otherwise, in enumeration order; a root whose subkeys all lack
`DisplayName` therefore contributes zero components, without error. -/
theorem collect_apps_requires_display_name :
    (∀ roots : List (String × List (String × Int × List (String × RegValue))),
      collect_apps (registry_of_plain roots) =
        .ok (roots.flatMap fun r => r.2.flatMap fun k =>
          if (k.2.2.map Prod.fst).contains "DisplayName" then
            [Application.new k.1 k.2.1 k.2.2]
          else [])) ∧
      collect_apps (registry_of_plain
        [("SOFTWARE\\loc", [("Key1", 3, [("Publisher", reg_sz_of "P")]),
          ("Key2", 4, [])])]) = .ok [] := by
  constructor
  · intro roots
    induction roots with
    | nil => rfl
    | cons r t ih =>
      rw [registry_of_plain_cons, collect_apps_cons_ok]
      simp only [process_sub_keys_plain, ih]
      simp [expected_apps, List.flatMap_cons]
  · decide
